import Mathlib

/-
Shallow embedding of the notification rule-evaluation and dispatch pipeline
of src/en/cozy-banks/src/ducks/notifications/services.js.

JavaScript dynamic values are modelled by the inductive type JSVal; numbers
are modelled as integers (the pipeline never performs fractional arithmetic
on configuration values).  Fallible JavaScript evaluation (a thrown
TypeError, a rejected promise) is modelled by the Except String monad; the
sequential await-based control flow of the source maps to the bind of that
monad.  Log output (the cozy-logger calls) is modelled by a list of Log
entries returned alongside the result.  External collaborators
(BankAccount.getAll, client.query, sendNotification, the notification class
constructors) are parameters gathered in the Env structure and in the Klass
descriptor, mirroring the spec view of them as consumed capabilities.
-/

namespace GozyNotif

/-- A JavaScript runtime value, as far as the pipeline inspects one. -/
inductive JSVal where
  | undefined : JSVal
  | null : JSVal
  | bool : Bool → JSVal
  | num : Int → JSVal
  | str : String → JSVal
  | arr : List JSVal → JSVal
  | obj : List (String × JSVal) → JSVal
deriving Repr

/-- JavaScript truthiness of a value. -/
def truthy : JSVal → Bool
  | .undefined => false
  | .null => false
  | .bool b => b
  | .num n => n != 0
  | .str s => s != ""
  | .arr _ => true
  | .obj _ => true

/-- Whether typeof v evaluates to the string object (null, arrays and
plain objects all do). -/
def isTypeofObject : JSVal → Bool
  | .null => true
  | .arr _ => true
  | .obj _ => true
  | _ => false

/-- Array.isArray. -/
def isArray : JSVal → Bool
  | .arr _ => true
  | _ => false

/-- First-occurrence lookup in an object field list.  Objects built by this
development keep their keys distinct, matching JavaScript objects. -/
def lookupField : List (String × JSVal) → String → Option JSVal
  | [], _ => none
  | (k', v) :: rest, k => if k' = k then some v else lookupField rest k

/-- Property read v[k].  Reading a property of undefined or null throws a
TypeError; reading an absent property of an object yields undefined;
named properties of primitives and arrays that the pipeline never defines
read as undefined. -/
def getProp : JSVal → String → Except String JSVal
  | .undefined, k =>
      .error ("TypeError: Cannot read properties of undefined (reading " ++ k ++ ")")
  | .null, k =>
      .error ("TypeError: Cannot read properties of null (reading " ++ k ++ ")")
  | .obj fields, k =>
      .ok (match lookupField fields k with
           | some v => v
           | none => .undefined)
  | _, _ => .ok .undefined

/-- Index read v[i] for a numeric literal index, as used for klassRules[0]. -/
def jsIndex : JSVal → Nat → Except String JSVal
  | .undefined, i =>
      .error ("TypeError: Cannot read properties of undefined (reading " ++ toString i ++ ")")
  | .null, i =>
      .error ("TypeError: Cannot read properties of null (reading " ++ toString i ++ ")")
  | .arr xs, i =>
      .ok (match xs.get? i with
           | some x => x
           | none => .undefined)
  | .obj fields, i =>
      .ok (match lookupField fields (toString i) with
           | some v => v
           | none => .undefined)
  | .str s, i =>
      .ok (match s.toList.get? i with
           | some c => .str (String.singleton c)
           | none => .undefined)
  | _, _ => .ok .undefined

/-- Assignment target[k] = v on an object field list: replace the existing
entry in place, or append a new one, as JavaScript objects do. -/
def setField : List (String × JSVal) → String → JSVal → List (String × JSVal)
  | [], k, v => [(k, v)]
  | (k', v') :: rest, k, v =>
      if k' = k then (k, v) :: rest else (k', v') :: setField rest k v

/-- Assignment target[k] = v when the target is an object (the only case the
pipeline exercises). -/
def objSetField (target : JSVal) (k : String) (v : JSVal) : JSVal :=
  match target with
  | .obj fields => .obj (setField fields k v)
  | other => other

/-- The own enumerable properties of a value, in order, as read by
Object.assign: object fields, array indices, string indices; null,
undefined, booleans and numbers contribute none. -/
def ownEnumerable : JSVal → List (String × JSVal)
  | .obj fields => fields
  | .arr xs => xs.mapIdx (fun i x => (toString i, x))
  | .str s => s.toList.mapIdx (fun i c => (toString i, JSVal.str (String.singleton c)))
  | _ => []

/-- Object.assign(target, source): every own enumerable property of the
source is assigned onto the target, in order, later assignments winning. -/
def objAssign (target source : JSVal) : JSVal :=
  (ownEnumerable source).foldl (fun acc kv => objSetField acc kv.1 kv.2) target

/-- Helper for jsSome: Array.prototype.some evaluated left to right with a
fallible predicate, short-circuiting at the first true. -/
def jsSomeAux (p : JSVal → Except String Bool) : List JSVal → Except String Bool
  | [] => .ok false
  | x :: xs => do
      let b ← p x
      if b then pure true else jsSomeAux p xs

/-- v.some(p): a TypeError unless v is an array. -/
def jsSome (v : JSVal) (p : JSVal → Except String Bool) : Except String Bool :=
  match v with
  | .arr xs => jsSomeAux p xs
  | _ => .error "TypeError: rules.some is not a function"

/-- Helper for jsFilter: Array.prototype.filter evaluated left to right with
a fallible predicate. -/
def jsFilterAux (p : JSVal → Except String Bool) : List JSVal → Except String (List JSVal)
  | [] => .ok []
  | x :: xs => do
      let b ← p x
      let rest ← jsFilterAux p xs
      pure (if b then x :: rest else rest)

/-- v.filter(p): a TypeError unless v is an array. -/
def jsFilter (v : JSVal) (p : JSVal → Except String Bool) : Except String JSVal :=
  match v with
  | .arr xs => do
      let ys ← jsFilterAux p xs
      pure (.arr ys)
  | _ => .error "TypeError: rules.filter is not a function"

/-- One line emitted through the namespaced cozy-logger. -/
inductive Log where
  | info : String → Log
  | warn : String → Log
deriving Repr, DecidableEq

/-- A notification class descriptor: its settings key, its multi-rule flag,
its optional rule-validity predicate, and its constructor capability
(new Klass(options), which may throw).  The five concrete classes
(BalanceLower and the others) are external modules; the pipeline only reads
these members of them. -/
structure Klass where
  settingKey : String
  supportsMultipleRules : Bool
  isValidRule : Option (JSVal → Except String Bool)
  construct : JSVal → Except String JSVal

/-- A bank transaction, as far as the pipeline reads one: its account
reference. -/
structure Transaction where
  account : String
deriving Repr, DecidableEq

/-- A bank account record, as far as the pipeline reads one: its identifier. -/
structure Account where
  _id : String
deriving Repr, DecidableEq

/-- The external capabilities consumed by the pipeline: the platform client
handle, the batched account fetch, the group-collection query, the
notification transmit capability, the bound translation function value and
the locale dictionary value. -/
structure Env where
  client : JSVal
  getAll : List String → Except String (List Account)
  queryGroups : Except String JSVal
  send : JSVal → JSVal → Except String Unit
  tVal : JSVal
  dict : JSVal

/-- JavaScript Set construction from a list: insertion order, first
occurrence kept. -/
def setFromList (xs : List String) : List String :=
  xs.foldl (fun acc x => if acc.contains x then acc else acc ++ [x]) []

/-- Modelled from the spec: the store client capability BankAccount.getAll
(imported from the models module, which is not part of the sources here) is
a batched fetch-by-id — it returns the stored accounts whose identifier is
among the requested ids. -/
def BankAccount.getAll (db : List Account) (ids : List String) : List Account :=
  db.filter (fun a => ids.contains a._id)

/-- The warning message built by fetchTransactionAccounts when accounts are
missing. -/
def missingWarnMsg (delta : Int) (absent : List String) : String :=
  toString delta ++ " account(s) do not exist (ids: " ++ String.intercalate "," absent ++ ")"

/-- fetchTransactionAccounts from services.js: collect the distinct account
references, fetch them in one batched lookup, log a warning when some are
missing, and return whatever was found. -/
def fetchTransactionAccounts (getAll : List String → Except String (List Account))
    (transactions : List Transaction) : Except String (List Account × List Log) := do
  let accountsIds := setFromList (transactions.map (fun x => x.account))
  let accounts ← getAll accountsIds
  let existingAccountIds := setFromList (accounts.map (fun x => x._id))
  let absentAccountIds := accountsIds.filter (fun x => !existingAccountIds.contains x)
  let delta : Int := (accountsIds.length : Int) - (existingAccountIds.length : Int)
  let logs := if delta ≠ 0 then [Log.warn (missingWarnMsg delta absentAccountIds)] else []
  pure (accounts, logs)

/-- fetchGroups from services.js: the full, unfiltered group-collection
query. -/
def fetchGroups (env : Env) : Except String JSVal :=
  env.queryGroups

/-- getClassRules from services.js: read config.notifications[settingKey];
wrap a non-array object (including null) in a one-element array; otherwise
return the entry itself when truthy and an empty array when falsy. -/
def getClassRules (K : Klass) (config : JSVal) : Except String JSVal := do
  let notifs ← getProp config "notifications"
  let classRules ← getProp notifs K.settingKey
  if isTypeofObject classRules && !isArray classRules then
    pure (.arr [classRules])
  else
    pure (if truthy classRules then classRules else .arr [])

/-- getValidClassRules from services.js: filter by the class validity
predicate when the class exposes one, pass through otherwise. -/
def getValidClassRules (K : Klass) (config : JSVal) : Except String JSVal := do
  let rules ← getClassRules K config
  match K.isValidRule with
  | some p => jsFilter rules p
  | none => pure rules

/-- The predicate rule.enabled used under rules.some: read the enabled
property (a TypeError on a null rule) and take its truthiness. -/
def ruleEnabledProp (r : JSVal) : Except String Bool := do
  let e ← getProp r "enabled"
  pure (truthy e)

/-- isNotificationKlassEnabledFromConfig from services.js: the class is
enabled when some valid rule has a truthy enabled field; one info log line
states the outcome. -/
def isNotificationKlassEnabledFromConfig (config : JSVal) (K : Klass) :
    Except String (Bool × List Log) := do
  let rules ← getValidClassRules K config
  let enabled ← if truthy rules then jsSome rules ruleEnabledProp else pure false
  pure (enabled,
    [Log.info (K.settingKey ++ " is " ++ (if enabled then "" else "not") ++ " enabled")])

/-- getEnabledNotificationClasses from services.js, with the module-level
notificationClasses list as an explicit parameter (the five concrete
descriptors are external modules): filter the descriptor list by the
enablement predicate, in order, collecting its log lines. -/
def getEnabledNotificationClasses (classes : List Klass) (config : JSVal) :
    Except String (List Klass × List Log) :=
  match classes with
  | [] => .ok ([], [])
  | K :: rest => do
      let p ← isNotificationKlassEnabledFromConfig config K
      let q ← getEnabledNotificationClasses rest config
      .ok ((if p.1 then K :: q.1 else q.1), p.2 ++ q.2)

/-- The explicit option-bundle fields built first by
sendNotificationForClass: client, t, locales, lang, data. -/
def baseKlassOptions (env : Env) (lang : String) (data : JSVal) : JSVal :=
  .obj [("client", env.client), ("t", env.tVal),
        ("locales", .obj [(lang, env.dict)]),
        ("lang", .str lang), ("data", data)]

/-- The option-bundle construction of sendNotificationForClass: start from
the explicit fields, then either attach the full resolved rule sequence
under rules (multi-rule class) or Object.assign the first resolved rule
over the bundle (single-rule class). -/
def buildKlassOptions (env : Env) (lang : String) (K : Klass) (config data : JSVal) :
    Except String JSVal := do
  let klassRules ← getClassRules K config
  let base := baseKlassOptions env lang data
  if K.supportsMultipleRules then
    pure (objSetField base "rules" klassRules)
  else do
    let r0 ← jsIndex klassRules 0
    pure (objAssign base r0)

/-- JSON.stringify of a caught error; errors are modelled as strings, and
stringifying a string quotes it. -/
def jsonStringify (err : String) : String :=
  "\"" ++ err ++ "\""

/-- sendNotificationForClass from services.js: build the option bundle,
construct the notification view (outside any try block), then transmit it,
catching a transmit failure and logging it serialized at warning level. -/
def sendNotificationForClass (env : Env) (lang : String) (K : Klass)
    (config data : JSVal) : Except String (List Log) := do
  let klassOptions ← buildKlassOptions env lang K config data
  let notificationView ← K.construct klassOptions
  match env.send env.client notificationView with
  | .ok _ => pure []
  | .error err => pure [Log.warn (jsonStringify err)]

/-- The for-of loop of sendNotifications: each enabled class in list order,
awaiting each send before the next. -/
def sendNotificationsLoop (env : Env) (lang : String) (config data : JSVal) :
    List Klass → Except String (List Log)
  | [] => .ok []
  | K :: rest => do
      let l ← sendNotificationForClass env lang K config data
      let ls ← sendNotificationsLoop env lang config data rest
      pure (l ++ ls)

/-- The transaction records as placed in the data bundle. -/
def encodeTransaction (tx : Transaction) : JSVal :=
  .obj [("account", .str tx.account)]

/-- The account records as placed in the data bundle. -/
def encodeAccount (a : Account) : JSVal :=
  .obj [("_id", .str a._id)]

/-- The shared data bundle handed to every class. -/
def mkData (accounts : List Account) (groups : JSVal) (transactions : List Transaction) : JSVal :=
  .obj [("accounts", .arr (accounts.map encodeAccount)),
        ("groups", groups),
        ("transactions", .arr (transactions.map encodeTransaction))]

/-- The transaction and account count info line of sendNotifications. -/
def countLogLine (transactions : List Transaction) (accounts : List Account) : Log :=
  .info (toString transactions.length ++ " new transactions on " ++
         toString accounts.length ++ " accounts.")

/-- sendNotifications from services.js: resolve the enabled classes, fetch
the referenced accounts and the full group collection, log the batch count
line, then dispatch each enabled class in order. -/
def sendNotifications (env : Env) (classes : List Klass) (lang : String)
    (config : JSVal) (transactions : List Transaction) : Except String (List Log) := do
  let enabled ← getEnabledNotificationClasses classes config
  let fetched ← fetchTransactionAccounts env.getAll transactions
  let accounts := fetched.1
  let groups ← fetchGroups env
  let data := mkData accounts groups transactions
  let loopLogs ← sendNotificationsLoop env lang config data enabled.1
  pure (enabled.2 ++ fetched.2 ++ [countLogLine transactions accounts] ++ loopLogs)

/-! Helper lemmas about the Except monad and the embedded primitives. -/

theorem excBindOk {α β : Type} (a : α) (f : α → Except String β) :
    (Except.ok a >>= f) = f a := rfl

theorem excBindErr {α β : Type} (e : String) (f : α → Except String β) :
    ((Except.error e : Except String α) >>= f) = Except.error e := rfl

theorem excPure {α : Type} (a : α) : (pure a : Except String α) = Except.ok a := rfl

/-- A single-rule notification class descriptor with no validity predicate,
whose constructor returns its option bundle; used as the concrete class in
witnesses and counterexamples. -/
def mkSimpleKlass (key : String) : Klass :=
  { settingKey := key, supportsMultipleRules := false, isValidRule := none,
    construct := fun o => .ok o }

/-- A concrete environment whose external capabilities all succeed. -/
def env0 : Env :=
  { client := .str "realClient", getAll := fun _ => .ok [],
    queryGroups := .ok (.arr []), send := fun _ _ => .ok (),
    tVal := .str "boundT", dict := .str "dictEn" }

/-- C4: getClassRules is a pure function of the class descriptor and the
configuration.  When the configuration entry for the settings key of the
class is a single non-array object m it returns the one-element array
containing m; when it is already an array it returns that array as-is; and
when it is absent it returns the empty array. -/
theorem C4_confirmed (K : Klass) (config : JSVal) (notifs : List (String × JSVal))
    (hc : getProp config "notifications" = .ok (.obj notifs)) :
    (∀ m, lookupField notifs K.settingKey = some (.obj m) →
        getClassRules K config = .ok (.arr [.obj m]))
    ∧ (∀ xs, lookupField notifs K.settingKey = some (.arr xs) →
        getClassRules K config = .ok (.arr xs))
    ∧ (lookupField notifs K.settingKey = none →
        getClassRules K config = .ok (.arr [])) := by
  refine ⟨?_, ?_, ?_⟩
  · intro m hm
    simp only [getClassRules, hc, excBindOk]
    simp [getProp, hm, excBindOk, isTypeofObject, isArray, excPure]
  · intro xs hxs
    simp only [getClassRules, hc, excBindOk]
    simp [getProp, hxs, excBindOk, isTypeofObject, isArray, truthy, excPure]
  · intro habs
    simp only [getClassRules, hc, excBindOk]
    simp [getProp, habs, excBindOk, isTypeofObject, isArray, truthy, excPure]

/-- Closed witness for C4 at a concrete configuration exercising the
single-object case. -/
theorem C4_witness :
    getClassRules (mkSimpleKlass "k0")
        (.obj [("notifications", .obj [("k0", .obj [("enabled", .bool true)])])])
      = .ok (.arr [.obj [("enabled", .bool true)]]) :=
  (C4_confirmed (mkSimpleKlass "k0")
      (.obj [("notifications", .obj [("k0", .obj [("enabled", .bool true)])])])
      [("k0", .obj [("enabled", .bool true)])] rfl).1
    [("enabled", .bool true)] rfl

/-- C9: when the configuration object has no notifications property,
getClassRules reads a property of undefined and throws a TypeError, and the
same TypeError propagates out of getEnabledNotificationClasses and
sendNotifications instead of every class being treated as disabled. -/
theorem C9_confirmed (K : Klass) (rest : List Klass) (env : Env) (lang : String)
    (fields : List (String × JSVal)) (txs : List Transaction)
    (h : lookupField fields "notifications" = none) :
    getClassRules K (.obj fields)
        = .error ("TypeError: Cannot read properties of undefined (reading "
                   ++ K.settingKey ++ ")")
    ∧ getEnabledNotificationClasses (K :: rest) (.obj fields)
        = .error ("TypeError: Cannot read properties of undefined (reading "
                   ++ K.settingKey ++ ")")
    ∧ sendNotifications env (K :: rest) lang (.obj fields) txs
        = .error ("TypeError: Cannot read properties of undefined (reading "
                   ++ K.settingKey ++ ")") := by
  have hg : getClassRules K (.obj fields)
      = .error ("TypeError: Cannot read properties of undefined (reading "
                 ++ K.settingKey ++ ")") := by
    simp [getClassRules, getProp, h, excBindOk, excBindErr]
  have he : getEnabledNotificationClasses (K :: rest) (.obj fields)
      = .error ("TypeError: Cannot read properties of undefined (reading "
                 ++ K.settingKey ++ ")") := by
    simp [getEnabledNotificationClasses, isNotificationKlassEnabledFromConfig,
          getValidClassRules, hg, excBindErr]
  refine ⟨hg, he, ?_⟩
  simp [sendNotifications, he, excBindErr]

/-- Closed witness for C9 at a concrete configuration lacking the
notifications property. -/
theorem C9_witness :
    sendNotifications env0 [mkSimpleKlass "k0"] "en" (.obj [("other", .num 1)]) []
      = .error "TypeError: Cannot read properties of undefined (reading k0)" :=
  (C9_confirmed (mkSimpleKlass "k0") [] env0 "en" [("other", .num 1)] [] rfl).2.2

/-- C3 fails on the code: a null entry under the settings key of a class is
wrapped as the one-element array containing null by getClassRules, and the
enablement filter then reads the enabled property of null and throws a
TypeError, so dispatch resolution raises on this malformed entry. -/
theorem C3_counterexample :
    getClassRules (mkSimpleKlass "k1") (.obj [("notifications", .obj [("k1", .null)])])
      = .ok (.arr [.null])
    ∧ getEnabledNotificationClasses [mkSimpleKlass "k1"]
        (.obj [("notifications", .obj [("k1", .null)])])
      = .error "TypeError: Cannot read properties of null (reading enabled)" :=
  ⟨rfl, rfl⟩

/-- C3 amended: normalization itself is total — whenever config.notifications
is an object, getClassRules succeeds on every entry shape — but malformed
entries are not harmless downstream, since enablement filtering can throw on
a null entry (see the counterexample). -/
theorem C3_amended (K : Klass) (config : JSVal) (notifs : List (String × JSVal))
    (hc : getProp config "notifications" = .ok (.obj notifs)) :
    ∃ r, getClassRules K config = .ok r := by
  simp only [getClassRules, hc, excBindOk]
  simp only [getProp, excBindOk]
  split
  · exact ⟨_, rfl⟩
  · exact ⟨_, rfl⟩

/-- Closed witness for C3 amended: getClassRules succeeds even on a bare
string entry. -/
theorem C3_amended_witness :
    ∃ r, getClassRules (mkSimpleKlass "k1")
        (.obj [("notifications", .obj [("k1", .str "oops")])]) = .ok r :=
  C3_amended (mkSimpleKlass "k1") _ [("k1", .str "oops")] rfl

/-! Lemmas about object field assignment, used for the option-bundle
claims. -/

theorem lookupField_setField (fs : List (String × JSVal)) (k k' : String) (v : JSVal) :
    lookupField (setField fs k v) k' = if k = k' then some v else lookupField fs k' := by
  induction fs with
  | nil => simp [setField, lookupField]
  | cons kv rest ih =>
      obtain ⟨k0, v0⟩ := kv
      by_cases h0 : k0 = k <;> by_cases h1 : k = k' <;>
        simp_all [setField, lookupField]

theorem lookupField_eq_none (fs : List (String × JSVal)) (k : String)
    (h : k ∉ fs.map Prod.fst) : lookupField fs k = none := by
  induction fs with
  | nil => rfl
  | cons kv rest ih =>
      obtain ⟨k0, v0⟩ := kv
      simp only [List.map_cons, List.mem_cons] at h
      push_neg at h
      have hne : ¬ k0 = k := fun hk => h.1 hk.symm
      simp [lookupField, hne, ih h.2]

theorem objAssign_obj (rf : List (String × JSVal)) (fs : List (String × JSVal)) :
    objAssign (.obj fs) (.obj rf)
      = .obj (rf.foldl (fun acc kv => setField acc kv.1 kv.2) fs) := by
  induction rf generalizing fs with
  | nil => rfl
  | cons kv rest ih =>
      have := ih (setField fs kv.1 kv.2)
      simpa [objAssign, ownEnumerable, objSetField, List.foldl_cons] using this

theorem lookup_foldl_setField (rf : List (String × JSVal)) (fs : List (String × JSVal))
    (k : String) (hnd : (rf.map Prod.fst).Nodup) :
    lookupField (rf.foldl (fun acc kv => setField acc kv.1 kv.2) fs) k
      = match lookupField rf k with
        | some v => some v
        | none => lookupField fs k := by
  induction rf generalizing fs with
  | nil => simp [lookupField]
  | cons kv rest ih =>
      obtain ⟨k0, v0⟩ := kv
      simp only [List.map_cons, List.nodup_cons] at hnd
      simp only [List.foldl_cons]
      rw [ih _ hnd.2]
      by_cases h0 : k0 = k
      · subst h0
        have hnot : lookupField rest k0 = none := lookupField_eq_none rest k0 hnd.1
        simp [lookupField, hnot, lookupField_setField]
      · simp only [lookupField, if_neg h0]
        cases lookupField rest k with
        | some v => simp
        | none => simp [lookupField_setField, h0]

/-- A multi-rule notification class descriptor with no validity predicate,
whose constructor returns its option bundle. -/
def mkMultiKlass (key : String) : Klass :=
  { settingKey := key, supportsMultipleRules := true, isValidRule := none,
    construct := fun o => .ok o }

/-- A configuration in which the class with settings key k0 has one disabled
rule followed by one enabled rule. -/
def cfgMixedRules : JSVal :=
  .obj [("notifications", .obj [("k0",
    .arr [.obj [("enabled", .bool false), ("tag", .str "disabled-rule")],
          .obj [("enabled", .bool true)]])])]

/-- C1 fails on the code: under cfgMixedRules the class is enabled (its
second rule is enabled), so it reaches the Dispatcher, and the Dispatcher
flattens the FIRST resolved rule — whose enabled field is false — into the
option bundle, so a rule record lacking enabled true reaches the
notification class. -/
theorem C1_counterexample :
    (getEnabledNotificationClasses [mkSimpleKlass "k0"] cfgMixedRules).map
        (fun p => p.1.map Klass.settingKey) = .ok ["k0"]
    ∧ (buildKlassOptions env0 "en" (mkSimpleKlass "k0") cfgMixedRules (.str "data")).bind
        (fun o => getProp o "enabled") = .ok (.bool false) :=
  ⟨rfl, rfl⟩

/-- C1 amended: the Dispatcher recomputes the rule set with getClassRules
and hands it over without any filtering by the enabled flag or by validity:
for a multi-rule class the rules field of the option bundle is exactly the
full resolved sequence, and for a single-rule class the first resolved rule
— enabled or not — is assigned onto the bundle. -/
theorem C1_amended (env : Env) (lang : String) (K : Klass) (config data : JSVal) :
    (∀ r, K.supportsMultipleRules = true → getClassRules K config = .ok r →
        buildKlassOptions env lang K config data
          = .ok (objSetField (baseKlassOptions env lang data) "rules" r)
        ∧ getProp (objSetField (baseKlassOptions env lang data) "rules" r) "rules"
          = .ok r)
    ∧ (∀ r0 rest, K.supportsMultipleRules = false →
        getClassRules K config = .ok (.arr (r0 :: rest)) →
        buildKlassOptions env lang K config data
          = .ok (objAssign (baseKlassOptions env lang data) r0)) := by
  constructor
  · intro r hm hr
    constructor
    · simp [buildKlassOptions, hr, excBindOk, hm, excPure]
    · simp [baseKlassOptions, objSetField, setField, getProp, lookupField]
  · intro r0 rest hm hr
    simp [buildKlassOptions, hr, excBindOk, hm, jsIndex, excPure]

/-- Closed witness for C1 amended: the full mixed rule sequence, disabled
rule included, lands under the rules field for a multi-rule class. -/
theorem C1_amended_witness :
    buildKlassOptions env0 "en" (mkMultiKlass "k0") cfgMixedRules (.str "data")
      = .ok (objSetField (baseKlassOptions env0 "en" (.str "data")) "rules"
          (.arr [.obj [("enabled", .bool false), ("tag", .str "disabled-rule")],
                 .obj [("enabled", .bool true)]])) :=
  ((C1_amended env0 "en" (mkMultiKlass "k0") cfgMixedRules (.str "data")).1
    (.arr [.obj [("enabled", .bool false), ("tag", .str "disabled-rule")],
           .obj [("enabled", .bool true)]]) rfl rfl).1

/-- A configuration whose single rule for key k0 carries a field named
client, colliding with an explicit option-bundle field. -/
def cfgClientCollision : JSVal :=
  .obj [("notifications", .obj [("k0",
    .obj [("enabled", .bool true), ("client", .str "evil")])])]

/-- C7 fails on the code: Object.assign copies the rule fields over the
bundle AFTER the explicit fields were set, so a rule field named client
silently overwrites the explicit client handle. -/
theorem C7_counterexample :
    env0.client = .str "realClient"
    ∧ (buildKlassOptions env0 "en" (mkSimpleKlass "k0") cfgClientCollision (.str "data")).bind
        (fun o => getProp o "client") = .ok (.str "evil")
    ∧ JSVal.str "evil" ≠ JSVal.str "realClient" :=
  ⟨rfl, rfl, by simp⟩

/-- C7 amended: for a multi-rule class the full resolved rule sequence is
attached under the rules field; for a single-rule class the fields of the
first rule are assigned over the explicit bundle fields, the rule field
winning on a name collision, while every explicit field whose name the rule
does not use is preserved. -/
theorem C7_amended (env : Env) (lang : String) (K : Klass) (config data : JSVal) :
    (∀ r, K.supportsMultipleRules = true → getClassRules K config = .ok r →
        ∃ opts, buildKlassOptions env lang K config data = .ok opts
          ∧ getProp opts "rules" = .ok r)
    ∧ (∀ rf rest, K.supportsMultipleRules = false →
        getClassRules K config = .ok (.arr (.obj rf :: rest)) →
        (rf.map Prod.fst).Nodup →
        ∃ opts, buildKlassOptions env lang K config data = .ok opts
          ∧ (∀ k v, lookupField rf k = some v → getProp opts k = .ok v)
          ∧ (∀ k, lookupField rf k = none →
              getProp opts k = getProp (baseKlassOptions env lang data) k)) := by
  constructor
  · intro r hm hr
    refine ⟨_, ((C1_amended env lang K config data).1 r hm hr).1,
            ((C1_amended env lang K config data).1 r hm hr).2⟩
  · intro rf rest hm hr hnd
    refine ⟨objAssign (baseKlassOptions env lang data) (.obj rf),
            (C1_amended env lang K config data).2 (.obj rf) rest hm hr, ?_, ?_⟩
    · intro k v hk
      rw [baseKlassOptions, objAssign_obj, getProp, lookup_foldl_setField rf _ k hnd, hk]
    · intro k hk
      rw [baseKlassOptions, objAssign_obj, getProp, lookup_foldl_setField rf _ k hnd, hk]
      rfl

/-- Closed witness for C7 amended: with a collision-free rule the explicit
client field survives the flattening. -/
theorem C7_amended_witness :
    ∃ opts, buildKlassOptions env0 "en" (mkSimpleKlass "k0")
        (.obj [("notifications", .obj [("k0",
           .obj [("enabled", .bool true), ("threshold", .num 100)])])]) (.str "data")
        = .ok opts
      ∧ getProp opts "client"
        = getProp (baseKlassOptions env0 "en" (.str "data")) "client" := by
  obtain ⟨opts, h1, _, h3⟩ :=
    (C7_amended env0 "en" (mkSimpleKlass "k0")
        (.obj [("notifications", .obj [("k0",
           .obj [("enabled", .bool true), ("threshold", .num 100)])])]) (.str "data")).2
      [("enabled", .bool true), ("threshold", .num 100)] [] rfl rfl (by decide)
  exact ⟨opts, h1, h3 "client" rfl⟩

/-- A configuration enabling the class with settings key k0 through a single
enabled rule. -/
def cfgEnabledSimple : JSVal :=
  .obj [("notifications", .obj [("k0", .obj [("enabled", .bool true)])])]

/-- A notification class whose constructor throws. -/
def KlassBoom : Klass :=
  { settingKey := "k0", supportsMultipleRules := false, isValidRule := none,
    construct := fun _ => .error "constructor boom" }

/-- C2 fails on the code: the try block of sendNotificationForClass covers
only the transmit call, not the construction of the notification view, so a
class whose constructor throws makes sendNotifications reject as a whole and
the remaining enabled class is never attempted. -/
theorem C2_counterexample :
    sendNotifications env0 [KlassBoom, mkSimpleKlass "k0"] "en" cfgEnabledSimple []
      = .error "constructor boom" :=
  rfl

/-! Characterization of the enablement filter. -/

theorem jsSomeAux_false_all (p : JSVal → Except String Bool) (xs : List JSVal)
    (h : jsSomeAux p xs = .ok false) : ∀ r ∈ xs, p r = .ok false := by
  induction xs with
  | nil => simp
  | cons x xs ih =>
      intro r hr
      cases hpx : p x with
      | error e => simp [jsSomeAux, hpx, excBindErr] at h
      | ok bx =>
          rw [jsSomeAux, hpx, excBindOk] at h
          cases bx with
          | true => simp [excPure] at h
          | false =>
              rw [if_neg Bool.false_ne_true] at h
              rcases List.mem_cons.mp hr with rfl | hmem
              · exact hpx
              · exact ih h r hmem

theorem jsSomeAux_true_exists (p : JSVal → Except String Bool) (xs : List JSVal)
    (h : jsSomeAux p xs = .ok true) : ∃ r, r ∈ xs ∧ p r = .ok true := by
  induction xs with
  | nil => simp [jsSomeAux, excPure] at h
  | cons x xs ih =>
      cases hpx : p x with
      | error e => simp [jsSomeAux, hpx, excBindErr] at h
      | ok bx =>
          rw [jsSomeAux, hpx, excBindOk] at h
          cases bx with
          | true => exact ⟨x, List.mem_cons_self x xs, hpx⟩
          | false =>
              rw [if_neg Bool.false_ne_true] at h
              obtain ⟨r, hr, hpr⟩ := ih h
              exact ⟨r, List.mem_cons_of_mem x hr, hpr⟩

theorem jsSome_ok_arr (v : JSVal) (p : JSVal → Except String Bool) (b : Bool)
    (h : jsSome v p = .ok b) : ∃ xs, v = .arr xs ∧ jsSomeAux p xs = .ok b := by
  cases v
  case arr xs => exact ⟨xs, rfl, h⟩
  all_goals simp [jsSome] at h

/-- A class is reported enabled exactly when its valid rule list is an array
holding some rule whose enabled property reads as truthy. -/
theorem isEnabled_ok_iff (config : JSVal) (K : Klass) (b : Bool) (lg : List Log)
    (h : isNotificationKlassEnabledFromConfig config K = .ok (b, lg)) :
    b = true ↔ ∃ xs, getValidClassRules K config = .ok (.arr xs)
        ∧ ∃ r, r ∈ xs ∧ ruleEnabledProp r = .ok true := by
  cases hv : getValidClassRules K config with
  | error e => simp [isNotificationKlassEnabledFromConfig, hv, excBindErr] at h
  | ok rules =>
      simp only [isNotificationKlassEnabledFromConfig, hv, excBindOk] at h
      by_cases ht : truthy rules = true
      · rw [if_pos ht] at h
        cases hs : jsSome rules ruleEnabledProp with
        | error e => rw [hs, excBindErr] at h; exact absurd h (by simp)
        | ok b' =>
            rw [hs, excBindOk] at h
            have hb : b' = b := by
              have := h
              simp only [excPure, Except.ok.injEq, Prod.mk.injEq] at this
              exact this.1
            subst hb
            obtain ⟨xs, hrx, hsx⟩ := jsSome_ok_arr rules ruleEnabledProp b' hs
            subst hrx
            cases b' with
            | true =>
                simp only [true_iff]
                obtain ⟨r, hr, hpr⟩ := jsSomeAux_true_exists ruleEnabledProp xs hsx
                exact ⟨xs, rfl, r, hr, hpr⟩
            | false =>
                simp only [Bool.false_eq_true, false_iff]
                rintro ⟨xs', hxs', r, hr, hpr⟩
                have hxx : xs' = xs := by
                  have h2 := hxs'
                  simp only [Except.ok.injEq, JSVal.arr.injEq] at h2
                  exact h2.symm
                rw [hxx] at hr
                have hall := jsSomeAux_false_all ruleEnabledProp xs hsx r hr
                rw [hall] at hpr
                exact absurd hpr (by simp)
      · rw [if_neg ht] at h
        have hb0 : b = false := by
          have := h
          simp only [excPure, excBindOk, Except.ok.injEq, Prod.mk.injEq] at this
          exact this.1.symm
        subst hb0
        simp only [Bool.false_eq_true, false_iff]
        rintro ⟨xs', hxs', -, -, -⟩
        have : rules = .arr xs' := by
          have := hxs'
          simp only [Except.ok.injEq] at this
          exact this
        subst this
        exact ht rfl

theorem getEnabled_ok_cons (config : JSVal) (K : Klass) (cs : List Klass)
    (l : List Klass) (lg : List Log)
    (h : getEnabledNotificationClasses (K :: cs) config = .ok (l, lg)) :
    ∃ b lgK l' lg', isNotificationKlassEnabledFromConfig config K = .ok (b, lgK)
      ∧ getEnabledNotificationClasses cs config = .ok (l', lg')
      ∧ l = (if b then K :: l' else l') ∧ lg = lgK ++ lg' := by
  cases hK : isNotificationKlassEnabledFromConfig config K with
  | error e =>
      simp only [getEnabledNotificationClasses] at h
      rw [hK, excBindErr] at h
      exact absurd h (by simp)
  | ok p =>
      obtain ⟨b, lgK⟩ := p
      cases hrest : getEnabledNotificationClasses cs config with
      | error e =>
          simp only [getEnabledNotificationClasses] at h
          rw [hK, excBindOk, hrest, excBindErr] at h
          exact absurd h (by simp)
      | ok q =>
          obtain ⟨l', lg'⟩ := q
          simp only [getEnabledNotificationClasses] at h
          rw [hK, excBindOk, hrest, excBindOk] at h
          have hinj := h
          simp only [Except.ok.injEq, Prod.mk.injEq] at hinj
          exact ⟨b, lgK, l', lg', rfl, rfl, hinj.1.symm, hinj.2.symm⟩

theorem getEnabled_sublist (config : JSVal) (cs : List Klass)
    (l : List Klass) (lg : List Log)
    (h : getEnabledNotificationClasses cs config = .ok (l, lg)) : l.Sublist cs := by
  induction cs generalizing l lg with
  | nil =>
      simp only [getEnabledNotificationClasses, Except.ok.injEq, Prod.mk.injEq] at h
      obtain ⟨h1, -⟩ := h
      subst h1
      exact List.Sublist.refl []
  | cons K cs ih =>
      obtain ⟨b, lgK, l', lg', hK, hrest, hl, -⟩ := getEnabled_ok_cons config K cs l lg h
      subst hl
      cases b with
      | true => exact List.Sublist.cons₂ K (ih l' lg' hrest)
      | false => exact List.Sublist.cons K (ih l' lg' hrest)

theorem getEnabled_mem (config : JSVal) (cs : List Klass)
    (l : List Klass) (lg : List Log)
    (h : getEnabledNotificationClasses cs config = .ok (l, lg)) :
    ∀ K ∈ cs, ∃ b lgK, isNotificationKlassEnabledFromConfig config K = .ok (b, lgK)
      ∧ (K ∈ l ↔ b = true) := by
  induction cs generalizing l lg with
  | nil => simp
  | cons K0 cs ih =>
      obtain ⟨b0, lg0, l', lg', hK0, hrest, hl, -⟩ := getEnabled_ok_cons config K0 cs l lg h
      subst hl
      intro K hK
      rcases List.mem_cons.mp hK with rfl | hmem
      · refine ⟨b0, lg0, hK0, ?_⟩
        cases b0 with
        | true => rw [if_pos rfl]; simp
        | false =>
            rw [if_neg Bool.false_ne_true]
            simp only [Bool.false_eq_true, iff_false]
            by_cases hKm : K ∈ cs
            · obtain ⟨b', lg'', hK', hiff⟩ := ih l' lg' hrest K hKm
              rw [hK0] at hK'
              have hb' : b' = false := by
                have h2 := hK'.symm
                simp only [Except.ok.injEq, Prod.mk.injEq] at h2
                exact h2.1
              subst hb'
              simpa using hiff
            · exact fun hKl =>
                hKm ((getEnabled_sublist config cs l' lg' hrest).subset hKl)
      · obtain ⟨b, lgK, hK', hiff⟩ := ih l' lg' hrest K hmem
        refine ⟨b, lgK, hK', ?_⟩
        cases b0 with
        | false => rw [if_neg Bool.false_ne_true]; exact hiff
        | true =>
            rw [if_pos rfl]
            by_cases hKK : K = K0
            · subst hKK
              rw [hK0] at hK'
              have hb : b = true := by
                have h2 := hK'.symm
                simp only [Except.ok.injEq, Prod.mk.injEq] at h2
                exact h2.1
              subst hb
              simp
            · simp only [List.mem_cons]
              constructor
              · intro hor
                rcases hor with hKeq | hKl
                · exact absurd hKeq hKK
                · exact hiff.mp hKl
              · intro hb
                exact Or.inr (hiff.mpr hb)

/-- A configuration whose single rule for key k1 has a truthy but
non-boolean enabled field. -/
def cfgTruthyEnabled : JSVal :=
  .obj [("notifications", .obj [("k1", .obj [("enabled", .num 1)])])]

/-- C6 fails on the code: enablement tests the truthiness of the enabled
field, not strict equality with true, so a class whose only rule carries
enabled set to the number 1 is reported enabled although no rule has
enabled strictly equal to the boolean true. -/
theorem C6_counterexample :
    (getEnabledNotificationClasses [mkSimpleKlass "k1"] cfgTruthyEnabled).map
        (fun p => p.1.map Klass.settingKey) = .ok ["k1"]
    ∧ getClassRules (mkSimpleKlass "k1") cfgTruthyEnabled
        = .ok (.arr [.obj [("enabled", .num 1)]])
    ∧ JSVal.num 1 ≠ JSVal.bool true :=
  ⟨rfl, rfl, by simp⟩

/-- C6 amended: getEnabledNotificationClasses returns an order-preserving
subset of the descriptor list containing exactly those classes for which at
least one valid rule has a TRUTHY enabled field (equivalently enabled equal
to true whenever the field is the boolean the data model prescribes); a
class with no configuration entry resolves to an empty rule list and is
excluded. -/
theorem C6_amended (classes : List Klass) (config : JSVal)
    (enabled : List Klass) (logs : List Log)
    (h : getEnabledNotificationClasses classes config = .ok (enabled, logs)) :
    enabled.Sublist classes
    ∧ ∀ K ∈ classes, ∃ b lgK,
        isNotificationKlassEnabledFromConfig config K = .ok (b, lgK)
        ∧ (K ∈ enabled ↔ b = true)
        ∧ (b = true ↔ ∃ xs, getValidClassRules K config = .ok (.arr xs)
            ∧ ∃ r, r ∈ xs ∧ ruleEnabledProp r = .ok true) := by
  refine ⟨getEnabled_sublist config classes enabled logs h, ?_⟩
  intro K hK
  obtain ⟨b, lgK, hKe, hiff⟩ := getEnabled_mem config classes enabled logs h K hK
  exact ⟨b, lgK, hKe, hiff, isEnabled_ok_iff config K b lgK hKe⟩

/-- Closed witness for C6 amended at a concrete enabled configuration. -/
theorem C6_amended_witness :
    ∃ b lgK, isNotificationKlassEnabledFromConfig cfgTruthyEnabled (mkSimpleKlass "k1")
        = .ok (b, lgK)
      ∧ (mkSimpleKlass "k1" ∈ [mkSimpleKlass "k1"] ↔ b = true)
      ∧ (b = true ↔ ∃ xs, getValidClassRules (mkSimpleKlass "k1") cfgTruthyEnabled
            = .ok (.arr xs)
          ∧ ∃ r, r ∈ xs ∧ ruleEnabledProp r = .ok true) :=
  (C6_amended [mkSimpleKlass "k1"] cfgTruthyEnabled [mkSimpleKlass "k1"]
      [Log.info "k1 is  enabled"] rfl).2 (mkSimpleKlass "k1") (List.mem_singleton.mpr rfl)

/-- If every class of a list is reported enabled under the configuration,
filtering that list returns it unchanged. -/
theorem getEnabled_all_true (config : JSVal) (cs : List Klass)
    (h : ∀ K ∈ cs, ∃ lg, isNotificationKlassEnabledFromConfig config K = .ok (true, lg)) :
    ∃ L, getEnabledNotificationClasses cs config = .ok (cs, L) := by
  induction cs with
  | nil => exact ⟨[], rfl⟩
  | cons K cs ih =>
      obtain ⟨lgK, hK⟩ := h K (List.mem_cons_self K cs)
      obtain ⟨L, hL⟩ := ih (fun K' h' => h K' (List.mem_cons_of_mem K h'))
      refine ⟨lgK ++ L, ?_⟩
      simp only [getEnabledNotificationClasses]
      rw [hK, excBindOk, hL, excBindOk, if_pos rfl]

/-- C8: the enablement filter neither mutates nor depends on anything but
the configuration value — the embedding is pure because the source performs
no assignment to the configuration — so calling it twice yields the same
result, and re-filtering its own output returns that output unchanged. -/
theorem C8_confirmed (classes : List Klass) (config : JSVal) :
    getEnabledNotificationClasses classes config
      = getEnabledNotificationClasses classes config
    ∧ ∀ enabled logs, getEnabledNotificationClasses classes config = .ok (enabled, logs) →
        ∃ logs2, getEnabledNotificationClasses enabled config = .ok (enabled, logs2) := by
  refine ⟨rfl, ?_⟩
  intro enabled logs h
  apply getEnabled_all_true
  intro K hK
  have hKc : K ∈ classes := (getEnabled_sublist config classes enabled logs h).subset hK
  obtain ⟨b, lgK, hKe, hiff⟩ := getEnabled_mem config classes enabled logs h K hKc
  have hb : b = true := hiff.mp hK
  subst hb
  exact ⟨lgK, hKe⟩

/-- Closed witness for C8 at a concrete configuration. -/
theorem C8_witness :
    ∃ logs2, getEnabledNotificationClasses [mkSimpleKlass "k0"] cfgEnabledSimple
        = .ok ([mkSimpleKlass "k0"], logs2) :=
  (C8_confirmed [mkSimpleKlass "k0"] cfgEnabledSimple).2 [mkSimpleKlass "k0"]
    [Log.info "k0 is  enabled"] rfl

/-! Lemmas about set construction and the account reconciler. -/

theorem setFromList_aux_mem (xs : List String) (acc : List String) (y : String) :
    y ∈ xs.foldl (fun acc x => if acc.contains x then acc else acc ++ [x]) acc
      ↔ y ∈ acc ∨ y ∈ xs := by
  induction xs generalizing acc with
  | nil => simp
  | cons x xs ih =>
      simp only [List.foldl_cons]
      by_cases hc : x ∈ acc
      · rw [if_pos (by simpa using hc), ih]
        constructor
        · rintro (h | h)
          · exact Or.inl h
          · exact Or.inr (List.mem_cons_of_mem _ h)
        · rintro (h | h)
          · exact Or.inl h
          · rcases List.mem_cons.mp h with rfl | h2
            · exact Or.inl hc
            · exact Or.inr h2
      · rw [if_neg (by simpa using hc), ih]
        simp only [List.mem_append, List.mem_singleton, List.mem_cons]
        tauto

theorem mem_setFromList (y : String) (xs : List String) :
    y ∈ setFromList xs ↔ y ∈ xs := by
  simpa [setFromList] using setFromList_aux_mem xs [] y

theorem setFromList_aux_nodup (xs : List String) (acc : List String) (h : acc.Nodup) :
    (xs.foldl (fun acc x => if acc.contains x then acc else acc ++ [x]) acc).Nodup := by
  induction xs generalizing acc with
  | nil => simpa
  | cons x xs ih =>
      simp only [List.foldl_cons]
      by_cases hc : x ∈ acc
      · rw [if_pos (by simpa using hc)]
        exact ih acc h
      · rw [if_neg (by simpa using hc)]
        refine ih _ (List.Nodup.append h (List.nodup_singleton x) ?_)
        intro a ha hb
        rw [List.mem_singleton] at hb
        subst hb
        exact hc ha

theorem setFromList_nodup (xs : List String) : (setFromList xs).Nodup :=
  setFromList_aux_nodup xs [] List.nodup_nil

theorem contains_setFromList (l : List String) (x : String) :
    (setFromList l).contains x = l.contains x := by
  rw [Bool.eq_iff_iff]
  simp [List.elem_iff, mem_setFromList]

theorem length_filter_not_contains (req ex : List String)
    (hreq : req.Nodup) (hex : ex.Nodup) (hsub : ∀ x ∈ ex, x ∈ req) :
    (req.filter (fun x => !ex.contains x)).length + ex.length = req.length := by
  have hperm := List.filter_append_perm (fun x => ex.contains x) req
  have hlen : (req.filter (fun x => ex.contains x)).length
      + (req.filter (fun x => !ex.contains x)).length = req.length := by
    simpa [List.length_append] using hperm.length_eq
  have hfe : (req.filter (fun x => ex.contains x)).length = ex.length := by
    have hfnodup : (req.filter (fun x => ex.contains x)).Nodup := hreq.filter _
    have hp : (req.filter (fun x => ex.contains x)).Perm ex := by
      apply (List.perm_ext_iff_of_nodup hfnodup hex).2
      intro a
      simp only [List.mem_filter]
      constructor
      · rintro ⟨-, hc⟩
        simpa [List.elem_iff] using hc
      · intro ha
        exact ⟨hsub a ha, by simpa [List.elem_iff] using ha⟩
    exact hp.length_eq
  omega

/-- Modelled from the spec: the distinct account references of a transaction
batch, in first-occurrence order, as collected into a Set by the source. -/
def requestedIds (transactions : List Transaction) : List String :=
  setFromList (transactions.map (fun x => x.account))

/-- Modelled from the spec: the set-difference requested − found between the
requested account ids and the ids of the accounts the store returned. -/
def missingIds (requested : List String) (found : List Account) : List String :=
  requested.filter (fun x => !(found.map (fun a => a._id)).contains x)

/-- C5: against the spec-modelled batched fetch-by-id store capability, the
reconciler requests the distinct referenced ids once, never fails, returns
exactly the accounts found, and emits exactly one warning — built from the
count of missing accounts and the ids requested − found — precisely when
that difference is non-empty. -/
theorem C5_confirmed (db : List Account) (txs : List Transaction) :
    (fetchTransactionAccounts (fun ids => .ok (BankAccount.getAll db ids)) txs
      = .ok (BankAccount.getAll db (requestedIds txs),
          if missingIds (requestedIds txs) (BankAccount.getAll db (requestedIds txs)) = []
          then []
          else [Log.warn (missingWarnMsg
              ((missingIds (requestedIds txs)
                  (BankAccount.getAll db (requestedIds txs))).length : Int)
              (missingIds (requestedIds txs)
                  (BankAccount.getAll db (requestedIds txs))))]))
    ∧ ∀ a ∈ BankAccount.getAll db (requestedIds txs),
        a ∈ db ∧ a._id ∈ requestedIds txs := by
  have hfound : ∀ a ∈ BankAccount.getAll db (requestedIds txs),
      a ∈ db ∧ a._id ∈ requestedIds txs := by
    intro a ha
    rw [BankAccount.getAll, List.mem_filter] at ha
    exact ⟨ha.1, by simpa [List.elem_iff] using ha.2⟩
  refine ⟨?_, hfound⟩
  simp only [fetchTransactionAccounts, excBindOk, excPure]
  have hreqdef : setFromList (txs.map (fun x => x.account)) = requestedIds txs := rfl
  rw [hreqdef]
  have hex := setFromList_nodup ((BankAccount.getAll db (requestedIds txs)).map
      (fun x => x._id))
  have hsub : ∀ x ∈ setFromList ((BankAccount.getAll db (requestedIds txs)).map
      (fun x => x._id)), x ∈ requestedIds txs := by
    intro x hx
    rw [mem_setFromList] at hx
    obtain ⟨a, ha, rfl⟩ := List.mem_map.mp hx
    exact (hfound a ha).2
  have habs : (requestedIds txs).filter
      (fun x => !((setFromList ((BankAccount.getAll db (requestedIds txs)).map
          (fun x => x._id))).contains x))
      = missingIds (requestedIds txs) (BankAccount.getAll db (requestedIds txs)) := by
    apply List.filter_congr
    intro x hx
    rw [contains_setFromList]
  have hcount := length_filter_not_contains (requestedIds txs)
      (setFromList ((BankAccount.getAll db (requestedIds txs)).map (fun x => x._id)))
      (setFromList_nodup _) hex hsub
  rw [habs] at hcount
  have hdelta : ((requestedIds txs).length : Int)
      - ((setFromList ((BankAccount.getAll db (requestedIds txs)).map
          (fun x => x._id))).length : Int)
      = ((missingIds (requestedIds txs)
          (BankAccount.getAll db (requestedIds txs))).length : Int) := by
    omega
  rw [habs, hdelta]
  by_cases hm : missingIds (requestedIds txs)
      (BankAccount.getAll db (requestedIds txs)) = []
  · simp [hm]
  · have hlen : ((missingIds (requestedIds txs)
        (BankAccount.getAll db (requestedIds txs))).length : Int) ≠ 0 := by
      intro h0
      exact hm (List.length_eq_zero.mp (by exact_mod_cast h0))
    simp [hm, hlen]

/-- Closed witness for C5 at a store holding one of two referenced
accounts. -/
theorem C5_witness :
    fetchTransactionAccounts
        (fun ids => .ok (BankAccount.getAll [{ _id := "A1" }] ids))
        [{ account := "A1" }, { account := "A2" }, { account := "A1" }]
      = .ok ([{ _id := "A1" }], [Log.warn "1 account(s) do not exist (ids: A2)"]) :=
  (C5_confirmed [{ _id := "A1" }]
    [{ account := "A1" }, { account := "A2" }, { account := "A1" }]).1

/-! Per-class failure containment and the dispatcher loop. -/

/-- When the option bundle and the notification view both build, the
per-class step only depends on the transmit outcome: a transmit failure is
caught and logged, a transmit success logs nothing. -/
theorem sendForClass_contained (env : Env) (lang : String) (K : Klass)
    (config data opts v : JSVal)
    (hb : buildKlassOptions env lang K config data = .ok opts)
    (hc : K.construct opts = .ok v) :
    sendNotificationForClass env lang K config data
      = .ok (match env.send env.client v with
             | .ok _ => []
             | .error err => [Log.warn (jsonStringify err)]) := by
  simp only [sendNotificationForClass, hb, excBindOk, hc]
  cases hsnd : env.send env.client v <;> simp [excPure]

theorem loop_ok_of_all_ok (env : Env) (lang : String) (config data : JSVal)
    (ks : List Klass)
    (h : ∀ K ∈ ks, ∃ l, sendNotificationForClass env lang K config data = .ok l) :
    ∃ L, sendNotificationsLoop env lang config data ks = .ok L := by
  induction ks with
  | nil => exact ⟨[], rfl⟩
  | cons K ks ih =>
      obtain ⟨l, hl⟩ := h K (List.mem_cons_self K ks)
      obtain ⟨L, hL⟩ := ih (fun K' h' => h K' (List.mem_cons_of_mem K h'))
      exact ⟨l ++ L, by simp [sendNotificationsLoop, hl, hL, excBindOk, excPure]⟩

/-- C2 amended: the catch covers only the transmit step.  Provided the
option bundle and the notification view of every enabled class build
successfully, sendNotifications resolves after attempting every enabled
class, and any class whose transmit fails contributes exactly one warning
log holding the serialized error; a failure while building or constructing
is NOT caught (see the counterexample). -/
theorem C2_amended (env : Env) (lang : String) (classes : List Klass)
    (config : JSVal) (txs : List Transaction)
    (enabled : List Klass) (l1 l2 : List Log)
    (accounts : List Account) (groups : JSVal)
    (h1 : getEnabledNotificationClasses classes config = .ok (enabled, l1))
    (h2 : fetchTransactionAccounts env.getAll txs = .ok (accounts, l2))
    (h3 : env.queryGroups = .ok groups)
    (h4 : ∀ K ∈ enabled, ∃ opts v,
        buildKlassOptions env lang K config (mkData accounts groups txs) = .ok opts
        ∧ K.construct opts = .ok v) :
    (∃ L, sendNotifications env classes lang config txs
        = .ok (l1 ++ l2 ++ [countLogLine txs accounts] ++ L))
    ∧ ∀ K ∈ enabled, ∀ opts v err,
        buildKlassOptions env lang K config (mkData accounts groups txs) = .ok opts →
        K.construct opts = .ok v →
        env.send env.client v = .error err →
        sendNotificationForClass env lang K config (mkData accounts groups txs)
          = .ok [Log.warn (jsonStringify err)] := by
  constructor
  · have hall : ∀ K ∈ enabled, ∃ l,
        sendNotificationForClass env lang K config (mkData accounts groups txs) = .ok l := by
      intro K hK
      obtain ⟨opts, v, hb, hc⟩ := h4 K hK
      exact ⟨_, sendForClass_contained env lang K config (mkData accounts groups txs)
        opts v hb hc⟩
    obtain ⟨L, hL⟩ := loop_ok_of_all_ok env lang config (mkData accounts groups txs)
      enabled hall
    refine ⟨L, ?_⟩
    simp only [sendNotifications, h1, excBindOk, h2, fetchGroups, h3, hL, excPure]
  · intro K hK opts v err hb hc hsnd
    rw [sendForClass_contained env lang K config (mkData accounts groups txs) opts v hb hc,
        hsnd]

/-- An environment whose transmit capability always rejects. -/
def envSendFail : Env :=
  { env0 with send := fun _ _ => .error "network down" }

/-- Closed witness for C2 amended: with a failing transmit capability the
batch still resolves, the count line is logged, and the loop contributes the
caught warning. -/
theorem C2_amended_witness :
    ∃ L, sendNotifications envSendFail [mkSimpleKlass "k0"] "en" cfgEnabledSimple []
      = .ok ([Log.info "k0 is  enabled"] ++ [] ++ [countLogLine [] []] ++ L) :=
  (C2_amended envSendFail "en" [mkSimpleKlass "k0"] cfgEnabledSimple []
    [mkSimpleKlass "k0"] [Log.info "k0 is  enabled"] [] [] (.arr [])
    rfl rfl rfl
    (by
      intro K hK
      rw [List.mem_singleton] at hK
      subst hK
      exact ⟨_, _, rfl, rfl⟩)).1

/-- C10: with an empty enabled set sendNotifications still runs the account
fetch and the group fetch — a failure of either rejects the whole call —
and when both succeed it resolves after logging the transaction and account
count line, sending nothing. -/
theorem C10_confirmed (env : Env) (classes : List Klass) (lang : String)
    (config : JSVal) (txs : List Transaction) (l1 : List Log)
    (h : getEnabledNotificationClasses classes config = .ok ([], l1)) :
    (∀ e, env.getAll (setFromList (txs.map (fun x => x.account))) = .error e →
        sendNotifications env classes lang config txs = .error e)
    ∧ (∀ accounts e,
        env.getAll (setFromList (txs.map (fun x => x.account))) = .ok accounts →
        env.queryGroups = .error e →
        sendNotifications env classes lang config txs = .error e)
    ∧ (∀ accounts l2 groups,
        fetchTransactionAccounts env.getAll txs = .ok (accounts, l2) →
        env.queryGroups = .ok groups →
        sendNotifications env classes lang config txs
          = .ok (l1 ++ l2 ++ [countLogLine txs accounts])) := by
  refine ⟨?_, ?_, ?_⟩
  · intro e he
    have hf : fetchTransactionAccounts env.getAll txs = .error e := by
      simp only [fetchTransactionAccounts, he, excBindErr]
    simp only [sendNotifications, h, excBindOk, hf, excBindErr]
  · intro accounts e hok hge
    cases hf : fetchTransactionAccounts env.getAll txs with
    | error e2 =>
        simp [fetchTransactionAccounts, hok, excBindOk, excPure] at hf
    | ok p =>
        simp only [sendNotifications, h, excBindOk, hf, fetchGroups, hge, excBindErr]
  · intro accounts l2 groups hf hg
    simp only [sendNotifications, h, excBindOk, hf, fetchGroups, hg,
      sendNotificationsLoop, excPure]
    simp

/-- An environment whose batched account fetch rejects. -/
def envFetchFail : Env :=
  { env0 with getAll := fun _ => .error "store down" }

/-- A configuration whose only rule for key k0 is disabled, so no class is
enabled. -/
def cfgDisabled : JSVal :=
  .obj [("notifications", .obj [("k0", .obj [("enabled", .bool false)])])]

/-- Closed witness for C10: with every class disabled, a failing account
fetch still rejects the whole call. -/
theorem C10_witness :
    sendNotifications envFetchFail [mkSimpleKlass "k0"] "en" cfgDisabled
        [{ account := "A1" }]
      = .error "store down" :=
  (C10_confirmed envFetchFail [mkSimpleKlass "k0"] "en" cfgDisabled
    [{ account := "A1" }] [Log.info "k0 is not enabled"] rfl).1 "store down" rfl

end GozyNotif
